import Mathlib

/-!
Verification development for the translation orchestration core of the
LinguaGacha repository: a shallow embedding of `CacheManager`,
`ResponseChecker`, `ResponseDecoder` and the relevant parts of
`Translator`, together with theorems settling the specification claims.

Python strings are modelled through their character lists; the Python
string helpers used by the embedded code (`strip`, `splitlines`,
substring membership, `count`) are re-implemented structurally below so
that every definition is executable and kernel-reducible.
-/

namespace LinguaGacha

/-! ## Python string helpers -/

/-- Model of Python `str.strip()`: remove leading and trailing whitespace.
Python strips the full Unicode whitespace class; the embedding covers the
ASCII whitespace characters, which are the only ones the claims exercise. -/
def pyStrip (s : String) : String :=
  String.mk (((s.data.dropWhile Char.isWhitespace).reverse.dropWhile Char.isWhitespace).reverse)

/-- Auxiliary for `pySplitlines`: walks the character list, accumulating the
current (reversed) line; a line terminator emits the accumulated line. -/
def splitLinesAux : List Char → List Char → List String
  | [], acc => if acc.isEmpty then [] else [String.mk acc.reverse]
  | '\r' :: '\n' :: rest, acc => String.mk acc.reverse :: splitLinesAux rest []
  | '\n' :: rest, acc => String.mk acc.reverse :: splitLinesAux rest []
  | '\r' :: rest, acc => String.mk acc.reverse :: splitLinesAux rest []
  | c :: rest, acc => splitLinesAux rest (c :: acc)

/-- Model of Python `str.splitlines()`: terminators end a line and produce no
trailing empty line.  The embedding handles the newline forms LF, CRLF and CR;
Python additionally splits on a few rarer control characters that none of the
claims exercise. -/
def pySplitlines (s : String) : List String :=
  splitLinesAux s.data []

/-- Boolean test that the list `p` is an initial segment of `s`. -/
def listStartsWith : List Char → List Char → Bool
  | [], _ => true
  | _ :: _, [] => false
  | a :: as, b :: bs => a == b && listStartsWith as bs

/-- Model of Python `needle in hay` for strings: substring membership. -/
def pyIn (needle hay : String) : Bool :=
  go needle.data hay.data
where
  go (n : List Char) : List Char → Bool
    | [] => listStartsWith n []
    | c :: rest => listStartsWith n (c :: rest) || go n rest

/-- Model of Python `s.count(c) > 0` for a single character. -/
def pyHasChar (s : String) (c : Char) : Bool :=
  s.data.contains c

/-! ## Data model (`CacheItem`, statuses, languages)

The value objects `CacheItem` / `Base.TranslationStatus` /
`BaseLanguage.Enum` live outside the four embedded source files; their
fields and variants are modelled from the specification's data-model
section and are exactly the ones the embedded code reads. -/

/-- Translation status of an item or a project (`Base.TranslationStatus`). -/
inductive TranslationStatus where
  | UNTRANSLATED
  | TRANSLATING
  | TRANSLATED
  | EXCLUDED
deriving DecidableEq, Repr

/-- File-type tag of an item; the embedded code only distinguishes `KVJSON`. -/
inductive FileType where
  | KVJSON
  | OTHER
deriving DecidableEq, Repr

/-- Source/target language tag (`BaseLanguage.Enum`), restricted to the
variants the embedded code compares against. -/
inductive Lang where
  | JA
  | KO
  | ZH
  | EN
deriving DecidableEq, Repr

/-- Modelled from the spec: one translatable unit (`CacheItem`), with the
attributes the embedded code reads and writes. -/
structure CacheItem where
  src : String
  dst : String
  status : TranslationStatus
  file_path : String
  file_type : FileType
  token_count : Nat
  retry_count : Nat
  skip_internal_filter : Bool
  row : Nat
deriving DecidableEq, Repr

instance : Inhabited CacheItem :=
  ⟨{ src := "", dst := "", status := TranslationStatus.UNTRANSLATED, file_path := "",
     file_type := FileType.OTHER, token_count := 0, retry_count := 0,
     skip_internal_filter := false, row := 0 }⟩

/-! ## CacheManager (`src/module/Cache/CacheManager.py`) -/

namespace CacheManager

/-- Sentence-terminal punctuation (`CacheManager.END_LINE_PUNCTUATION`).
Every entry of the Python tuple is a single character, so the tuple form of
`str.endswith` coincides with a last-character membership test. -/
def END_LINE_PUNCTUATION : List Char :=
  ['.', '。', '?', '？', '!', '！', '…', Char.ofNat 39, Char.ofNat 34, '’', '”', '」', '』']

/-- Model of `src.endswith(CacheManager.END_LINE_PUNCTUATION)`. -/
def endsWithEndLinePunctuation (s : String) : Bool :=
  match s.data.getLast? with
  | some c => END_LINE_PUNCTUATION.contains c
  | none => false

/-- Count of the non-empty lines of a source text:
`sum(1 for line in item.get_src().splitlines() if line.strip())`. -/
def nonEmptyLineLen (s : String) : Nat :=
  ((pySplitlines s).filter (fun line => pyStrip line ≠ "")).length

/-- The file path of `chunk[-1]`, the last item of a chunk (the chunks built
by the planner are never empty when it is read). -/
def chunkLastFp (chunk : List CacheItem) : String :=
  match chunk.getLast? with
  | some item => item.file_path
  | none => ""

/-- Loop body of `generate_preceding_chunks`: the first argument is the list
of candidate items in the order the backward walk visits them (descending
original index); `result` accumulates the collected items in walk order. -/
def precedingAux (fp : String) (preceding_lines_threshold : Nat) :
    List CacheItem → List CacheItem → List CacheItem
  | [], result => result
  | item :: rest, result =>
    if item.status = TranslationStatus.EXCLUDED then
      precedingAux fp preceding_lines_threshold rest result
    else if pyStrip item.src = "" then
      precedingAux fp preceding_lines_threshold rest result
    else if preceding_lines_threshold ≤ result.length then
      result
    else if item.file_path ≠ fp then
      result
    else if endsWithEndLinePunctuation (pyStrip item.src) then
      precedingAux fp preceding_lines_threshold rest (result ++ [item])
    else
      result

/-- Embedding of `CacheManager.generate_preceding_chunks`.  The Python loop
`for i in range(start - skip - len(chunk) - 1, -1, -1)` visits the indices
`start - skip - len(chunk) - 1, …, 0` of `items`, i.e. the reverse of the
prefix of that length plus one (and nothing when the bound is negative);
`chunk[-1].file_path` is the file path compared against.  The collected list
is reversed before returning. -/
def generate_preceding_chunks (items chunk : List CacheItem)
    (start skip preceding_lines_threshold : Nat) : List CacheItem :=
  let k : Int := (start : Int) - (skip : Int) - (chunk.length : Int) - 1
  if k < 0 then []
  else
    (precedingAux (chunkLastFp chunk) preceding_lines_threshold
      ((items.take (k.toNat + 1)).reverse) []).reverse

/-- Loop of `generate_item_chunks`, processing the remaining items with the
running state: `i` is the index of the next item, `skip` counts the items
skipped since the last flush, `lineLen`/`tokLen` are the cumulative
non-empty-line and token counts of the current `chunk`, and
`chunksAcc`/`precAcc` are the flushed chunks and their preceding chunks.
When the candidate would exceed the line limit or token threshold or comes
from a different file, the current chunk is flushed first; a chunk's first
item is admitted unconditionally.  The trailing non-empty chunk is flushed at
the end with `start = i + 1` for the last index `i`, i.e. the length of the
item list. -/
def chunkGo (allItems : List CacheItem) (token_threshold line_limit preceding_lines_threshold : Nat) :
    List CacheItem → Nat → Nat → Nat → Nat → List CacheItem →
    List (List CacheItem) → List (List CacheItem) →
    List (List CacheItem) × List (List CacheItem)
  | [], i, skip, _, _, chunk, chunksAcc, precAcc =>
    if chunk = [] then (chunksAcc, precAcc)
    else
      (chunksAcc ++ [chunk],
       precAcc ++ [generate_preceding_chunks allItems chunk i skip preceding_lines_threshold])
  | item :: rest, i, skip, lineLen, tokLen, chunk, chunksAcc, precAcc =>
    if item.status ≠ TranslationStatus.UNTRANSLATED then
      chunkGo allItems token_threshold line_limit preceding_lines_threshold rest
        (i + 1) (skip + 1) lineLen tokLen chunk chunksAcc precAcc
    else if chunk = [] then
      chunkGo allItems token_threshold line_limit preceding_lines_threshold rest
        (i + 1) skip (lineLen + nonEmptyLineLen item.src) (tokLen + item.token_count)
        (chunk ++ [item]) chunksAcc precAcc
    else if line_limit < lineLen + nonEmptyLineLen item.src ∨
        token_threshold < tokLen + item.token_count ∨
        item.file_path ≠ chunkLastFp chunk then
      chunkGo allItems token_threshold line_limit preceding_lines_threshold rest
        (i + 1) 0 (nonEmptyLineLen item.src) item.token_count [item]
        (chunksAcc ++ [chunk])
        (precAcc ++ [generate_preceding_chunks allItems chunk i skip preceding_lines_threshold])
    else
      chunkGo allItems token_threshold line_limit preceding_lines_threshold rest
        (i + 1) skip (lineLen + nonEmptyLineLen item.src) (tokLen + item.token_count)
        (chunk ++ [item]) chunksAcc precAcc

/-- Embedding of `CacheManager.generate_item_chunks`: the line limit is
`max(8, int(token_threshold / 16))` and the walk starts with empty state. -/
def generate_item_chunks (items : List CacheItem)
    (token_threshold preceding_lines_threshold : Nat) :
    List (List CacheItem) × List (List CacheItem) :=
  chunkGo items token_threshold (max 8 (token_threshold / 16)) preceding_lines_threshold
    items 0 0 0 0 [] [] []

/-- Embedding of `CacheManager.get_item_count_by_status`. -/
def get_item_count_by_status (items : List CacheItem) (status : TranslationStatus) : Nat :=
  (items.filter (fun item => item.status = status)).length

end CacheManager

/-! ## ResponseChecker (`src/module/Response/ResponseChecker.py`) -/

namespace ResponseChecker

-- Error codes (`ResponseChecker.Error`).
namespace Error

def NONE : String := "NONE"

def FAIL_DATA : String := "FAIL_DATA"

def FAIL_LINE_COUNT : String := "FAIL_LINE_COUNT"

def LINE_ERROR_KANA : String := "LINE_ERROR_KANA"

def LINE_ERROR_HANGEUL : String := "LINE_ERROR_HANGEUL"

def LINE_ERROR_EMPTY_LINE : String := "LINE_ERROR_EMPTY_LINE"

def LINE_ERROR_SIMILARITY : String := "LINE_ERROR_SIMILARITY"

def LINE_ERROR_DEGRADATION : String := "LINE_ERROR_DEGRADATION"

end Error

/-- Retry-count threshold (`ResponseChecker.RETRY_COUNT_THRESHOLD`). -/
def RETRY_COUNT_THRESHOLD : Nat := 2

/-- The external text helpers the checker calls (`TextPreserver`,
`RuleFilter`, `LanguageFilter`, `TextHelper`); they live outside the four
embedded source files, so the checker is embedded parametrically in them.
`jaccard` returns the similarity score as a rational. -/
structure CheckerEnv where
  placeholderIn : String → Bool
  ruleFilter : String → Bool → Bool
  languageFilter : String → Lang → Bool
  degradation : String → Bool
  anyHiragana : String → Bool
  anyKatakana : String → Bool
  anyHangeul : String → Bool
  jaccard : String → String → ℚ

/-- The Python source compares the similarity score with
`> 0.80 == True`; by Python's comparison chaining this is
`(score > 0.80) and (0.80 == True)`, and `0.80 == True` is `False`,
so the whole comparison is the constant `False`. -/
def pyPointEightEqTrue : Bool := false

/-- Per-line rule of `ResponseChecker.check_lines` (the loop body): the first
matching rule decides the line's code. -/
def checkLine (env : CheckerEnv) (selfSource selfTarget : Lang)
    (source_language : Lang) (src0 dst0 : String) (item : CacheItem) : String :=
  let src := pyStrip src0
  let dst := pyStrip dst0
  if src ≠ "" ∧ dst = "" then Error.LINE_ERROR_EMPTY_LINE
  else if env.placeholderIn src then Error.NONE
  else if env.ruleFilter src item.skip_internal_filter then Error.NONE
  else if env.languageFilter src source_language then Error.NONE
  else if env.degradation src = false ∧ env.degradation dst = true then
    Error.LINE_ERROR_DEGRADATION
  else if source_language = Lang.JA ∧ (env.anyHiragana dst ∨ env.anyKatakana dst) then
    Error.LINE_ERROR_KANA
  else if source_language = Lang.KO ∧ env.anyHangeul dst then
    Error.LINE_ERROR_HANGEUL
  else if pyIn src dst ∨ pyIn dst src ∨ (env.jaccard src dst > (4 : ℚ) / 5 ∧ pyPointEightEqTrue) then
    if selfSource = Lang.JA ∧ selfTarget = Lang.ZH then
      if env.anyHiragana dst ∨ env.anyKatakana dst then Error.LINE_ERROR_SIMILARITY
      else Error.NONE
    else if selfSource = Lang.KO ∧ selfTarget = Lang.ZH then
      if env.anyHangeul dst then Error.LINE_ERROR_SIMILARITY
      else Error.NONE
    else Error.LINE_ERROR_SIMILARITY
  else Error.NONE

/-- Embedding of `ResponseChecker.check_lines`: the three dictionaries are
zipped by value order (`zip` truncates to the shortest, as in Python). -/
def check_lines (env : CheckerEnv) (selfSource selfTarget : Lang)
    (source_language : Lang) :
    List String → List String → List CacheItem → List String
  | src :: srcs, dst :: dsts, item :: items =>
    checkLine env selfSource selfTarget source_language src dst item ::
      check_lines env selfSource selfTarget source_language srcs dsts items
  | _, _, _ => []

/-- Embedding of `ResponseChecker.check`.  Dictionary values are modelled as
association lists in insertion order; a destination value is an
`Option String` so that Python `None` (`none`) and the empty string are
distinguished, as rule one requires.  The single-item bypass mirrors
Python's `len(self.items) == 1 and self.items[0].get_retry_count() >= 2`.
For the per-line pass a `none` value is passed as the empty string; the
decoder only ever produces string values there. -/
def check (env : CheckerEnv) (selfSource selfTarget : Lang)
    (selfItems : List CacheItem)
    (src_dict : List (String × String)) (dst_dict : List (String × Option String))
    (item_dict : List (String × CacheItem)) (source_language : Lang) : List String :=
  if dst_dict.length = 0 ∨ ∀ kv ∈ dst_dict, kv.2 = some "" ∨ kv.2 = none then
    List.replicate src_dict.length Error.FAIL_DATA
  else if selfItems.length = 1 ∧ RETRY_COUNT_THRESHOLD ≤ selfItems.headI.retry_count then
    List.replicate src_dict.length Error.NONE
  else if src_dict.length ≠ dst_dict.length then
    List.replicate src_dict.length Error.FAIL_LINE_COUNT
  else
    let error := check_lines env selfSource selfTarget source_language
      (src_dict.map Prod.snd) (dst_dict.map (fun kv => kv.2.getD ""))
      (item_dict.map Prod.snd)
    if ∃ v ∈ error, v ≠ Error.NONE then error
    else List.replicate src_dict.length Error.NONE

end ResponseChecker

/-! ## ResponseDecoder (`src/module/Response/ResponseDecoder.py`) -/

namespace ResponseDecoder

/-- Values returned by the lenient JSON parser `json_repair.loads`: the
decoder only distinguishes dictionaries, strings and everything else.  The
parser itself is an external library, so the decoder is embedded
parametrically in the parse function. -/
inductive PyVal where
  | vdict (entries : List (String × PyVal))
  | vstr (s : String)
  | vother
deriving Inhabited

/-- One glossary entry produced by the decoder. -/
structure GlossaryEntry where
  src : String
  dst : String
  info : String
deriving DecidableEq, Repr

/-- Python `d[k] = v` on a dict modelled as an insertion-ordered association
list: an existing key is updated in place, a new key is appended. -/
def dictInsert (d : List (String × String)) (k v : String) : List (String × String) :=
  if d.any (fun kv => kv.1 == k) then
    d.map (fun kv => if kv.1 == k then (k, v) else kv)
  else
    d ++ [(k, v)]

/-- Coercion used by the decoder: `x if isinstance(x, str) else ""`. -/
def asStr : Option PyVal → String
  | some (PyVal.vstr s) => s
  | _ => ""

/-- Translation-entry part of the line-wise loop body: a parsed single-key
dictionary whose value is a string appends that value under the key
`str(len(dst_dict))`. -/
def decodeDst (entries : List (String × PyVal)) (dst_dict : List (String × String)) :
    List (String × String) :=
  if entries.length = 1 then
    match entries.head? with
    | some (_, PyVal.vstr v) => dictInsert dst_dict (toString dst_dict.length) v
    | _ => dst_dict
  else dst_dict

/-- Glossary part of the line-wise loop body: a parsed three-key dictionary
holding any of the keys `src`, `dst`, `gender` appends a glossary entry with
missing or non-string fields coerced to the empty string. -/
def decodeGlossary (entries : List (String × PyVal)) (glossary_list : List GlossaryEntry) :
    List GlossaryEntry :=
  if entries.length = 3 ∧
      ((entries.any (fun kv => kv.1 == "src")) ∨ (entries.any (fun kv => kv.1 == "dst")) ∨
        (entries.any (fun kv => kv.1 == "gender"))) then
    glossary_list ++ [{ src := asStr (entries.lookup "src"), dst := asStr (entries.lookup "dst"),
                        info := asStr (entries.lookup "gender") }]
  else glossary_list

/-- Body of the line-wise loop of `ResponseDecoder.decode` for one line. -/
def decodeLineStep (parse : String → PyVal)
    (acc : List (String × String) × List GlossaryEntry) (line : String) :
    List (String × String) × List GlossaryEntry :=
  match parse line with
  | PyVal.vdict entries => (decodeDst entries acc.1, decodeGlossary entries acc.2)
  | _ => acc

/-- The line-wise pass of `ResponseDecoder.decode`. -/
def linePass (parse : String → PyVal) (response : String) :
    List (String × String) × List GlossaryEntry :=
  (pySplitlines response).foldl (decodeLineStep parse) ([], [])

/-- The whole-response fallback of `ResponseDecoder.decode`: string values of
the parsed dictionary become the ordered translations. -/
def wholeFallback (parse : String → PyVal) (response : String)
    (dst_dict : List (String × String)) : List (String × String) :=
  match parse response with
  | PyVal.vdict entries =>
    entries.foldl
      (fun acc kv =>
        match kv.2 with
        | PyVal.vstr v => dictInsert acc (toString acc.length) v
        | _ => acc)
      dst_dict
  | _ => dst_dict

/-- Embedding of `ResponseDecoder.decode`: the line-wise pass first, and the
whole-response fallback only when it produced no translation entry. -/
def decode (parse : String → PyVal) (response : String) :
    List (String × String) × List GlossaryEntry :=
  (if (linePass parse response).1.length = 0 then
    wholeFallback parse response (linePass parse response).1
  else (linePass parse response).1,
   (linePass parse response).2)

end ResponseDecoder

/-! ## Translator (`src/module/Translator/Translator.py`) -/

namespace Translator

/-- Project progress record (`self.extras`).  Counters are integers; the
time stamps are reals modelled as rationals. -/
structure Extras where
  start_time : ℚ
  total_line : Int
  line : Int
  total_tokens : Int
  total_output_tokens : Int
  time : ℚ
deriving DecidableEq, Repr

/-- Usage summary returned by a completed `TranslatorTask`. -/
structure TaskResult where
  row_count : Int
  input_tokens : Int
  output_tokens : Int
deriving DecidableEq, Repr

/-- Embedding of the extras update of `Translator.task_done_callback`.
`none` stands for a future whose result is not a non-empty dict (the
callback returns without touching `extras`); `now` is the value of
`time.time()` at the callback. -/
def task_done_callback (extras : Extras) (result : Option TaskResult) (now : ℚ) : Extras :=
  match result with
  | none => extras
  | some r =>
    { start_time := extras.start_time
      total_line := extras.total_line
      line := extras.line + r.row_count
      total_tokens := extras.total_tokens + r.input_tokens + r.output_tokens
      total_output_tokens := extras.total_output_tokens + r.output_tokens
      time := now - extras.start_time }

/-- Embedding of the finalize step of `Translator.translation_start_target`:
the project status is set to `TRANSLATED` exactly when no `UNTRANSLATED`
item remains, and left unchanged otherwise. -/
def finalize_project_status (items : List CacheItem) (current : TranslationStatus) :
    TranslationStatus :=
  if CacheManager.get_item_count_by_status items TranslationStatus.UNTRANSLATED = 0 then
    TranslationStatus.TRANSLATED
  else current

/-- Embedding of `Translator.rule_filter`, parametric in the external
predicate `RuleFilter.filter`.  The Python code collects the items whose
source matches the predicate and sets each one's status to `EXCLUDED` in
place; on the list this is an element-wise update. -/
def rule_filter (p : String → Bool → Bool) (items : List CacheItem) : List CacheItem :=
  if items.length = 0 then items
  else
    items.map (fun v =>
      if p v.src v.skip_internal_filter then { v with status := TranslationStatus.EXCLUDED }
      else v)

/-- Embedding of `Translator.language_filter`, parametric in the external
predicate `LanguageFilter.filter`. -/
def language_filter (p : String → Lang → Bool) (source_language : Lang)
    (items : List CacheItem) : List CacheItem :=
  if items.length = 0 then items
  else
    items.map (fun v =>
      if p v.src source_language then { v with status := TranslationStatus.EXCLUDED }
      else v)

/-- Model of `itertools.zip_longest` with the same fill value on both sides. -/
def zipLongest (fill : α) : List α → List α → List (α × α)
  | [], [] => []
  | a :: as, [] => (a, fill) :: zipLongest fill as []
  | [], b :: bs => (fill, b) :: zipLongest fill [] bs
  | a :: as, b :: bs => (a, b) :: zipLongest fill as bs

/-- Model of `src.count(chr(10)) > 0`, the multi-line test of the optimizer. -/
def hasNewline (s : String) : Bool :=
  pyHasChar s '\n'

/-- The items synthesized from one multi-line parent in
`mtool_optimizer_postprocess`: one per `zip_longest` pair of the source and
destination lines, carrying the parent's vars with stripped line texts and
`row` set to `rowVal`. -/
def mkChildren (item : CacheItem) (rowVal : Nat) : List CacheItem :=
  (zipLongest "" (pySplitlines item.src) (pySplitlines item.dst)).map
    (fun sd => { item with src := pyStrip sd.1, dst := pyStrip sd.2, row := rowVal })

/-- File-path keys in first-occurrence order, as iterating a Python dict
built with `setdefault` yields them. -/
def groupKeys (l : List CacheItem) : List String :=
  l.foldl (fun acc item => if item.file_path ∈ acc then acc else acc ++ [item.file_path]) []

/-- Grouping by `file_path` with `setdefault`: the group of a key is the
subsequence of items carrying it, and groups come in key order. -/
def groupByFilePath (l : List CacheItem) : List (List CacheItem) :=
  (groupKeys l).map (fun k => l.filter (fun item => item.file_path = k))

/-- The items appended by `mtool_optimizer_postprocess`, in loop order:
groups of KVJSON items by file path, items within a group, line pairs within
a multi-line item, each child carrying `row` equal to the group size. -/
def postprocessAppended (items : List CacheItem) : List CacheItem :=
  (groupByFilePath (items.filter (fun item => item.file_type = FileType.KVJSON))).flatMap
    (fun g => g.flatMap (fun item =>
      if hasNewline item.src then mkChildren item g.length else []))

/-- Embedding of `Translator.mtool_optimizer_postprocess`: for each group of
KVJSON items sharing a file path, every multi-line item appends its
synthesized per-line children (with `row` the group size) to the item list. -/
def mtool_optimizer_postprocess (mtool_optimizer_enable : Bool)
    (items : List CacheItem) : List CacheItem :=
  if items.length = 0 ∨ mtool_optimizer_enable = false then items
  else items ++ postprocessAppended items

/-- Number of KVJSON items of `items` with the given file path: the size of
that file path's group. -/
def kvGroupSize (items : List CacheItem) (fp : String) : Nat :=
  ((items.filter (fun item => item.file_type = FileType.KVJSON)).filter
    (fun item => item.file_path = fp)).length

/-- Modelled from the spec's words for the postprocess claim: the collection
of new items it promises — one batch of children per KVJSON item whose
source holds a newline, with `row` the size of the parent's file-path
group — in parent order. -/
def claimAppended (items : List CacheItem) : List CacheItem :=
  (items.filter (fun item => item.file_type = FileType.KVJSON ∧ hasNewline item.src)).flatMap
    (fun item => mkChildren item (kvGroupSize items item.file_path))

end Translator

/-! ## Measures, invariant predicates and witness samples -/

/-- Cumulative non-empty-line count of a chunk. -/
def chunkLineSum (c : List CacheItem) : Nat :=
  (c.map (fun it => CacheManager.nonEmptyLineLen it.src)).sum

/-- Cumulative token count of a chunk. -/
def chunkTokSum (c : List CacheItem) : Nat :=
  (c.map (fun it => it.token_count)).sum

/-- Soundness of one returned pair of the planner: the preceding chunk meets
the threshold, is a subsequence of the item list in reading order, and its
members are unexcluded, non-empty, punctuation-terminated lines of the same
file as every item of the chunk. -/
def PrecedingOk (allItems : List CacheItem) (plt : Nat)
    (pr : List CacheItem × List CacheItem) : Prop :=
  pr.2.length ≤ plt ∧ pr.2.Sublist allItems ∧
    ∀ x ∈ pr.2, x.status ≠ TranslationStatus.EXCLUDED ∧ pyStrip x.src ≠ "" ∧
      CacheManager.endsWithEndLinePunctuation (pyStrip x.src) = true ∧
      ∀ y ∈ pr.1, x.file_path = y.file_path

/-- Key-shape invariant of a decoder dictionary: its keys are exactly the
decimal strings of `0, …, n-1` in order. -/
def keysOk (d : List (String × String)) : Prop :=
  d.map Prod.fst = (List.range d.length).map (fun n => toString n)

/-- Sample checker environment for the similarity-rule counterexample: every
external text predicate declines, and the Jaccard similarity of any two
strings is 9/10. -/
def envC1 : ResponseChecker.CheckerEnv :=
  { placeholderIn := fun _ => false
    ruleFilter := fun _ _ => false
    languageFilter := fun _ _ => false
    degradation := fun _ => false
    anyHiragana := fun _ => false
    anyKatakana := fun _ => false
    anyHangeul := fun _ => false
    jaccard := fun _ _ => 9 / 10 }

/-- Neutral checker environment for concrete witnesses: every external
predicate declines and the similarity score is zero. -/
def envDefault : ResponseChecker.CheckerEnv :=
  { placeholderIn := fun _ => false
    ruleFilter := fun _ _ => false
    languageFilter := fun _ _ => false
    degradation := fun _ => false
    anyHiragana := fun _ => false
    anyKatakana := fun _ => false
    anyHangeul := fun _ => false
    jaccard := fun _ _ => 0 }

/-- Parse function for the decoder witness: the line `x` parses to a
one-entry dictionary with string value, everything else to a non-dict. -/
def parseW (s : String) : ResponseDecoder.PyVal :=
  if s = "x" then ResponseDecoder.PyVal.vdict [("k", ResponseDecoder.PyVal.vstr "hello")]
  else ResponseDecoder.PyVal.vother

/-- Untranslated sample item used by concrete witnesses. -/
def sampleUntranslated : CacheItem :=
  { src := "hello", dst := "", status := TranslationStatus.UNTRANSLATED, file_path := "f",
    file_type := FileType.OTHER, token_count := 1, retry_count := 0,
    skip_internal_filter := false, row := 0 }

/-- Sample item that has already been retried twice on its own. -/
def sampleRetryTwice : CacheItem :=
  { src := "hello", dst := "", status := TranslationStatus.UNTRANSLATED, file_path := "f",
    file_type := FileType.OTHER, token_count := 1, retry_count := 2,
    skip_internal_filter := false, row := 0 }

/-- Already-translated sample item whose source the witness predicates
match. -/
def sampleTranslatedBad : CacheItem :=
  { src := "bad", dst := "done", status := TranslationStatus.TRANSLATED, file_path := "f",
    file_type := FileType.OTHER, token_count := 1, retry_count := 0,
    skip_internal_filter := false, row := 0 }

/-- Sample sentence-terminated item preceding `sampleWorld` in the same
file. -/
def sampleHello : CacheItem :=
  { src := "Hello.", dst := "", status := TranslationStatus.UNTRANSLATED, file_path := "f",
    file_type := FileType.OTHER, token_count := 200, retry_count := 0,
    skip_internal_filter := false, row := 0 }

/-- Sample item forced into its own chunk by the token threshold. -/
def sampleWorld : CacheItem :=
  { src := "World", dst := "", status := TranslationStatus.UNTRANSLATED, file_path := "f",
    file_type := FileType.OTHER, token_count := 200, retry_count := 0,
    skip_internal_filter := false, row := 0 }

/-- Sample multi-line KVJSON item for the postprocess witness. -/
def sampleKV : CacheItem :=
  { src := "a\nb", dst := "x\ny\nz", status := TranslationStatus.TRANSLATED, file_path := "f",
    file_type := FileType.KVJSON, token_count := 3, retry_count := 0,
    skip_internal_filter := false, row := 7 }


/-! ## Shared helper lemmas -/

/-- Indexing a mapped list through `getD` at an in-range position applies the
function to the original element. -/
theorem getD_map_of_lt (f : α → α) (l : List α) (i : Nat) (h : i < l.length) (d : α) :
    (l.map f).getD i d = f (l.getD i d) := by
  induction l generalizing i with
  | nil => simp at h
  | cons a l ih =>
    cases i with
    | zero => simp [List.getD]
    | succ n =>
      simp only [List.length_cons, Nat.succ_lt_succ_iff] at h
      simpa [List.getD] using ih n h

/-! ## Claim theorems -/

/-- C1: the claim asserts `LINE_ERROR_SIMILARITY` is emitted whenever the
Jaccard similarity of `src` and `dst` exceeds 0.80 (here 9/10, with both
languages outside the JA→ZH and KO→ZH exceptions, so the claim demands
unconditional emission).  The code emits `NONE` on such a line whenever
neither string contains the other, because `... > 0.80 == True` chains in
Python to `(score > 0.80) and (0.80 == True)`, which is always `False`: the
similarity-score branch of the rule is dead. -/
theorem C1_jaccard_branch_dead :
    ResponseChecker.check_lines envC1 Lang.EN Lang.EN Lang.EN
        ["ab ba"] ["ba ab"] [default] = [ResponseChecker.Error.NONE] ∧
      envC1.jaccard "ab ba" "ba ab" > (4 : ℚ) / 5 ∧
      pyIn "ab ba" "ba ab" = false ∧ pyIn "ba ab" "ab ba" = false := by
  have hs1 : pyStrip "ab ba" = "ab ba" := by decide
  have hs2 : pyStrip "ba ab" = "ba ab" := by decide
  have hin1 : pyIn "ab ba" "ba ab" = false := by decide
  have hin2 : pyIn "ba ab" "ab ba" = false := by decide
  refine ⟨?_, by norm_num [envC1], hin1, hin2⟩
  simp only [ResponseChecker.check_lines, ResponseChecker.checkLine, hs1, hs2]
  simp [envC1, hin1, hin2, ResponseChecker.pyPointEightEqTrue]

/-- C5: `ResponseChecker.check` applies its batch-level rules in order —
`FAIL_DATA` when the destination dict is empty or all of its values are empty
or null; otherwise all `NONE` when the checker holds exactly one item whose
retry count is at least the threshold, regardless of the destination values;
otherwise `FAIL_LINE_COUNT` when the line counts differ — each repeated once
per source line. -/
theorem C5_batch_rule_order (env : ResponseChecker.CheckerEnv)
    (selfSource selfTarget : Lang) (selfItems : List CacheItem)
    (src_dict : List (String × String)) (dst_dict : List (String × Option String))
    (item_dict : List (String × CacheItem)) (source_language : Lang) :
    ((dst_dict.length = 0 ∨ ∀ kv ∈ dst_dict, kv.2 = some "" ∨ kv.2 = none) →
      ResponseChecker.check env selfSource selfTarget selfItems src_dict dst_dict
          item_dict source_language =
        List.replicate src_dict.length ResponseChecker.Error.FAIL_DATA) ∧
    (¬(dst_dict.length = 0 ∨ ∀ kv ∈ dst_dict, kv.2 = some "" ∨ kv.2 = none) →
      selfItems.length = 1 ∧
        ResponseChecker.RETRY_COUNT_THRESHOLD ≤ selfItems.headI.retry_count →
      ResponseChecker.check env selfSource selfTarget selfItems src_dict dst_dict
          item_dict source_language =
        List.replicate src_dict.length ResponseChecker.Error.NONE) ∧
    (¬(dst_dict.length = 0 ∨ ∀ kv ∈ dst_dict, kv.2 = some "" ∨ kv.2 = none) →
      ¬(selfItems.length = 1 ∧
        ResponseChecker.RETRY_COUNT_THRESHOLD ≤ selfItems.headI.retry_count) →
      src_dict.length ≠ dst_dict.length →
      ResponseChecker.check env selfSource selfTarget selfItems src_dict dst_dict
          item_dict source_language =
        List.replicate src_dict.length ResponseChecker.Error.FAIL_LINE_COUNT) := by
  refine ⟨fun h1 => ?_, fun h1 h2 => ?_, fun h1 h2 h3 => ?_⟩
  · unfold ResponseChecker.check
    rw [if_pos h1]
  · unfold ResponseChecker.check
    rw [if_neg h1, if_pos h2]
  · unfold ResponseChecker.check
    rw [if_neg h1, if_neg h2, if_pos h3]

/-- Witness for C5 at concrete inputs: an all-empty destination dict gives
`FAIL_DATA`; a single twice-retried item gives all `NONE` despite a
mismatched destination; and with the first two rules off, differing line
counts give `FAIL_LINE_COUNT` per source line. -/
theorem C5_batch_rule_order_witness :
    ResponseChecker.check envDefault Lang.EN Lang.EN [] [("0", "a")] [("0", some "")] []
        Lang.EN = [ResponseChecker.Error.FAIL_DATA] ∧
      ResponseChecker.check envDefault Lang.EN Lang.EN [sampleRetryTwice]
        [("0", "a"), ("1", "b")] [("0", some "x")] [] Lang.EN =
        [ResponseChecker.Error.NONE, ResponseChecker.Error.NONE] ∧
      ResponseChecker.check envDefault Lang.EN Lang.EN [] [("0", "a"), ("1", "b")]
        [("0", some "x")] [] Lang.EN =
        [ResponseChecker.Error.FAIL_LINE_COUNT, ResponseChecker.Error.FAIL_LINE_COUNT] :=
  ⟨((C5_batch_rule_order envDefault Lang.EN Lang.EN [] [("0", "a")] [("0", some "")] []
      Lang.EN).1 (by decide)).trans (by decide),
   ((C5_batch_rule_order envDefault Lang.EN Lang.EN [sampleRetryTwice]
      [("0", "a"), ("1", "b")] [("0", some "x")] [] Lang.EN).2.1 (by decide)
      (by decide)).trans (by decide),
   ((C5_batch_rule_order envDefault Lang.EN Lang.EN [] [("0", "a"), ("1", "b")]
      [("0", some "x")] [] Lang.EN).2.2 (by decide) (by decide) (by decide)).trans
      (by decide)⟩

/-- Invariant behind chunk totality: the concatenation of the chunks the
planner loop returns is the already-flushed chunks, then the current chunk,
then the `UNTRANSLATED` subsequence of the remaining items. -/
theorem chunkGo_fst_join (allItems : List CacheItem) (tt ll plt : Nat) :
    ∀ (rest : List CacheItem) (i skip lineLen tokLen : Nat) (chunk : List CacheItem)
      (cAcc pAcc : List (List CacheItem)),
      (CacheManager.chunkGo allItems tt ll plt rest i skip lineLen tokLen chunk cAcc pAcc).1.flatten
        = cAcc.flatten ++ chunk ++
            rest.filter (fun it => it.status = TranslationStatus.UNTRANSLATED) := by
  intro rest
  induction rest with
  | nil =>
    intro i skip lineLen tokLen chunk cAcc pAcc
    by_cases h : chunk = []
    · subst h
      simp [CacheManager.chunkGo]
    · simp [CacheManager.chunkGo, h]
  | cons item rest ih =>
    intro i skip lineLen tokLen chunk cAcc pAcc
    by_cases hst : item.status = TranslationStatus.UNTRANSLATED
    · rw [CacheManager.chunkGo, if_neg (by simp [hst])]
      by_cases hchunk : chunk = []
      · rw [if_pos hchunk, ih]
        simp [hst, hchunk]
      · rw [if_neg hchunk]
        by_cases hcond : ll < lineLen + CacheManager.nonEmptyLineLen item.src ∨
            tt < tokLen + item.token_count ∨ item.file_path ≠ CacheManager.chunkLastFp chunk
        · rw [if_pos hcond, ih]
          simp [hst]
        · rw [if_neg hcond, ih]
          simp [hst]
    · rw [CacheManager.chunkGo, if_pos (by simp [hst]), ih]
      simp [hst]

/-- C2: the concatenation of the chunks of `generate_item_chunks` is exactly
the subsequence of the manager's items whose status is `UNTRANSLATED`, in
original order. -/
theorem C2_chunk_totality (items : List CacheItem) (token_threshold preceding_lines_threshold : Nat) :
    (CacheManager.generate_item_chunks items token_threshold preceding_lines_threshold).1.flatten
      = items.filter (fun it => it.status = TranslationStatus.UNTRANSLATED) := by
  simpa using chunkGo_fst_join items token_threshold (max 8 (token_threshold / 16))
    preceding_lines_threshold items 0 0 0 0 [] [] []

theorem chunkLineSum_append (c : List CacheItem) (x : CacheItem) :
    chunkLineSum (c ++ [x]) = chunkLineSum c + CacheManager.nonEmptyLineLen x.src := by
  simp [chunkLineSum]

theorem chunkTokSum_append (c : List CacheItem) (x : CacheItem) :
    chunkTokSum (c ++ [x]) = chunkTokSum c + x.token_count := by
  simp [chunkTokSum]

/-- Invariant behind the chunk bounds: provided the running line and token
counters are the sums over the current chunk and every flushed multi-item
chunk already meets the bounds, every multi-item chunk the loop returns has
cumulative non-empty-line count at most the line limit and cumulative token
count at most the token threshold. -/
theorem chunkGo_bounds (allItems : List CacheItem) (tt ll plt : Nat) :
    ∀ (rest : List CacheItem) (i skip lineLen tokLen : Nat) (chunk : List CacheItem)
      (cAcc pAcc : List (List CacheItem)),
      lineLen = chunkLineSum chunk →
      tokLen = chunkTokSum chunk →
      (1 < chunk.length → lineLen ≤ ll ∧ tokLen ≤ tt) →
      (∀ c ∈ cAcc, 1 < c.length → chunkLineSum c ≤ ll ∧ chunkTokSum c ≤ tt) →
      ∀ c ∈ (CacheManager.chunkGo allItems tt ll plt rest i skip lineLen tokLen chunk cAcc pAcc).1,
        1 < c.length → chunkLineSum c ≤ ll ∧ chunkTokSum c ≤ tt := by
  intro rest
  induction rest with
  | nil =>
    intro i skip lineLen tokLen chunk cAcc pAcc hl ht hcur hAcc c hc
    by_cases hchunk : chunk = []
    · rw [CacheManager.chunkGo, if_pos hchunk] at hc
      exact hAcc c hc
    · rw [CacheManager.chunkGo, if_neg hchunk] at hc
      rcases List.mem_append.mp hc with h | h
      · exact hAcc c h
      · have : c = chunk := by simpa using h
        subst this
        subst hl ht
        exact hcur
  | cons item rest ih =>
    intro i skip lineLen tokLen chunk cAcc pAcc hl ht hcur hAcc c hc
    by_cases hst : item.status = TranslationStatus.UNTRANSLATED
    · rw [CacheManager.chunkGo, if_neg (by simp [hst])] at hc
      by_cases hchunk : chunk = []
      · rw [if_pos hchunk] at hc
        subst hchunk
        refine ih _ _ _ _ _ _ _ ?_ ?_ ?_ hAcc c hc
        · simp [chunkLineSum] at hl
          simp [chunkLineSum, hl]
        · simp [chunkTokSum] at ht
          simp [chunkTokSum, ht]
        · intro hlen
          simp at hlen
      · rw [if_neg hchunk] at hc
        by_cases hcond : ll < lineLen + CacheManager.nonEmptyLineLen item.src ∨
            tt < tokLen + item.token_count ∨
            item.file_path ≠ CacheManager.chunkLastFp chunk
        · rw [if_pos hcond] at hc
          refine ih _ _ _ _ _ _ _ ?_ ?_ ?_ ?_ c hc
          · simp [chunkLineSum]
          · simp [chunkTokSum]
          · intro hlen
            simp at hlen
          · intro d hd
            rcases List.mem_append.mp hd with h | h
            · exact hAcc d h
            · have : d = chunk := by simpa using h
              subst this
              subst hl ht
              exact hcur
        · rw [if_neg hcond] at hc
          push_neg at hcond
          refine ih _ _ _ _ _ _ _ ?_ ?_ ?_ hAcc c hc
          · rw [chunkLineSum_append, hl]
          · rw [chunkTokSum_append, ht]
          · intro _
            exact ⟨hcond.1, hcond.2.1⟩
    · rw [CacheManager.chunkGo, if_pos (by simp [hst])] at hc
      exact ih _ _ _ _ _ _ _ hl ht hcur hAcc c hc

/-- C3: with `line_limit = max(8, floor(token_threshold / 16))`, every chunk
of `generate_item_chunks` containing more than one item has cumulative
non-empty-line count at most `line_limit` and cumulative token count at most
`token_threshold` (a single-item chunk is unconstrained). -/
theorem C3_chunk_bounds (items : List CacheItem)
    (token_threshold preceding_lines_threshold : Nat) :
    ∀ c ∈ (CacheManager.generate_item_chunks items token_threshold
        preceding_lines_threshold).1,
      1 < c.length →
        chunkLineSum c ≤ max 8 (token_threshold / 16) ∧ chunkTokSum c ≤ token_threshold := by
  refine chunkGo_bounds items token_threshold (max 8 (token_threshold / 16))
    preceding_lines_threshold items 0 0 0 0 [] [] [] rfl rfl ?_ ?_
  · intro h
    simp at h
  · intro c hc
    simp at hc

/-- Witness for C3: a two-item chunk produced at a concrete input satisfies
both bounds. -/
theorem C3_chunk_bounds_witness :
    chunkLineSum [sampleUntranslated, sampleUntranslated] ≤ max 8 (100 / 16) ∧
      chunkTokSum [sampleUntranslated, sampleUntranslated] ≤ 100 := by
  have h := C3_chunk_bounds [sampleUntranslated, sampleUntranslated] 100 0
  exact h [sampleUntranslated, sampleUntranslated] (by decide) (by decide)

/-- Walk lemma for the backward preceding-context search: the result extends
the accumulator by a subsequence of the candidate list whose members all
satisfy the collection conditions, and the threshold bounds the total
length. -/
theorem precedingAux_spec (fp : String) (plt : Nat) :
    ∀ (l acc : List CacheItem),
      ∃ s, CacheManager.precedingAux fp plt l acc = acc ++ s ∧ s.Sublist l ∧
        (∀ x ∈ s, x.status ≠ TranslationStatus.EXCLUDED ∧ pyStrip x.src ≠ "" ∧
          x.file_path = fp ∧
          CacheManager.endsWithEndLinePunctuation (pyStrip x.src) = true) ∧
        (acc.length ≤ plt → acc.length + s.length ≤ plt) := by
  intro l
  induction l with
  | nil =>
    intro acc
    exact ⟨[], by simp [CacheManager.precedingAux], List.nil_sublist _, by simp,
      fun h => by simpa using h⟩
  | cons item rest ih =>
    intro acc
    by_cases h1 : item.status = TranslationStatus.EXCLUDED
    · obtain ⟨s, hs, hsub, hprop, hlen⟩ := ih acc
      exact ⟨s, by rw [CacheManager.precedingAux, if_pos h1, hs], hsub.cons item, hprop, hlen⟩
    · by_cases h2 : pyStrip item.src = ""
      · obtain ⟨s, hs, hsub, hprop, hlen⟩ := ih acc
        exact ⟨s, by rw [CacheManager.precedingAux, if_neg h1, if_pos h2, hs],
          hsub.cons item, hprop, hlen⟩
      · by_cases h3 : plt ≤ acc.length
        · refine ⟨[], ?_, List.nil_sublist _, by simp, fun h => by simpa using h⟩
          rw [CacheManager.precedingAux, if_neg h1, if_neg h2, if_pos h3]
          simp
        · by_cases h4 : item.file_path ≠ fp
          · refine ⟨[], ?_, List.nil_sublist _, by simp, fun h => by simpa using h⟩
            rw [CacheManager.precedingAux, if_neg h1, if_neg h2, if_neg h3, if_pos h4]
            simp
          · by_cases h5 : CacheManager.endsWithEndLinePunctuation (pyStrip item.src) = true
            · obtain ⟨s, hs, hsub, hprop, hlen⟩ := ih (acc ++ [item])
              refine ⟨item :: s, ?_, hsub.cons₂ item, ?_, ?_⟩
              · rw [CacheManager.precedingAux, if_neg h1, if_neg h2, if_neg h3, if_neg h4,
                  if_pos h5, hs]
                simp
              · intro x hx
                rcases List.mem_cons.mp hx with hx | hx
                · subst hx
                  exact ⟨h1, h2, not_not.mp h4, h5⟩
                · exact hprop x hx
              · intro hle
                have hlt : acc.length < plt := Nat.lt_of_not_le h3
                have := hlen (by simpa using hlt)
                simp at this ⊢
                omega
            · refine ⟨[], ?_, List.nil_sublist _, by simp, fun h => by simpa using h⟩
              rw [CacheManager.precedingAux, if_neg h1, if_neg h2, if_neg h3, if_neg h4,
                if_neg h5]
              simp

/-- Properties of one generated preceding chunk: the threshold bounds its
length, it is an order-preserving subsequence of the item list, and each of
its members is not excluded, has a non-empty stripped source ending in
terminal punctuation, and carries the chunk's final file path. -/
theorem generate_preceding_chunks_spec (items chunk : List CacheItem)
    (start skip plt : Nat) :
    (CacheManager.generate_preceding_chunks items chunk start skip plt).length ≤ plt ∧
    (CacheManager.generate_preceding_chunks items chunk start skip plt).Sublist items ∧
    ∀ x ∈ CacheManager.generate_preceding_chunks items chunk start skip plt,
      x.status ≠ TranslationStatus.EXCLUDED ∧ pyStrip x.src ≠ "" ∧
      x.file_path = CacheManager.chunkLastFp chunk ∧
      CacheManager.endsWithEndLinePunctuation (pyStrip x.src) = true := by
  rw [CacheManager.generate_preceding_chunks]
  by_cases hk : ((start : Int) - (skip : Int) - (chunk.length : Int) - 1) < 0
  · rw [if_pos hk]
    exact ⟨Nat.zero_le _, List.nil_sublist _, by simp⟩
  · rw [if_neg hk]
    obtain ⟨s, hs, hsub, hprop, hlen⟩ := precedingAux_spec (CacheManager.chunkLastFp chunk) plt
      ((items.take ((((start : Int) - (skip : Int) - (chunk.length : Int) - 1)).toNat + 1)).reverse)
      []
    rw [hs]
    simp only [List.nil_append]
    refine ⟨?_, ?_, ?_⟩
    · simpa using hlen (Nat.zero_le _)
    · have h1 := hsub.reverse
      rw [List.reverse_reverse] at h1
      exact h1.trans (List.take_sublist _ _)
    · intro x hx
      exact hprop x (List.mem_reverse.mp hx)

/-- Every element of a nonempty chunk shares `chunkLastFp` once the chunk is
file-path constant. -/
theorem chunkLastFp_of_const {chunk : List CacheItem}
    (hfp : ∀ a ∈ chunk, ∀ b ∈ chunk, a.file_path = b.file_path)
    (hne : chunk ≠ []) :
    ∀ y ∈ chunk, y.file_path = CacheManager.chunkLastFp chunk := by
  intro y hy
  cases hl : chunk.getLast? with
  | none => exact absurd (List.getLast?_eq_none_iff.mp hl) hne
  | some last =>
    have hmem : last ∈ chunk := List.mem_of_mem_getLast? hl
    have : CacheManager.chunkLastFp chunk = last.file_path := by
      simp [CacheManager.chunkLastFp, hl]
    rw [this]
    exact hfp y hy last hmem

/-- File-path constancy is preserved when the appended item matches the
chunk's final file path. -/
theorem fpconst_append {chunk : List CacheItem} {item : CacheItem}
    (hfp : ∀ a ∈ chunk, ∀ b ∈ chunk, a.file_path = b.file_path)
    (hne : chunk ≠ [])
    (hitem : item.file_path = CacheManager.chunkLastFp chunk) :
    ∀ a ∈ chunk ++ [item], ∀ b ∈ chunk ++ [item], a.file_path = b.file_path := by
  have hlast := chunkLastFp_of_const hfp hne
  intro a ha b hb
  rcases List.mem_append.mp ha with ha | ha <;> rcases List.mem_append.mp hb with hb | hb
  · exact hfp a ha b hb
  · have hb' : b = item := by simpa using hb
    rw [hb', hitem]
    exact hlast a ha
  · have ha' : a = item := by simpa using ha
    rw [ha', hitem]
    exact (hlast b hb).symm
  · have ha' : a = item := by simpa using ha
    have hb' : b = item := by simpa using hb
    rw [ha', hb']

/-- A freshly flushed pair satisfies `PrecedingOk` whenever the flushed chunk
is nonempty and file-path constant. -/
theorem precedingOk_flush (allItems : List CacheItem) (plt : Nat)
    (chunk : List CacheItem) (i skip : Nat)
    (hfp : ∀ a ∈ chunk, ∀ b ∈ chunk, a.file_path = b.file_path)
    (hne : chunk ≠ []) :
    PrecedingOk allItems plt
      (chunk, CacheManager.generate_preceding_chunks allItems chunk i skip plt) := by
  obtain ⟨hlen, hsub, hprop⟩ := generate_preceding_chunks_spec allItems chunk i skip plt
  refine ⟨hlen, hsub, fun x hx => ?_⟩
  obtain ⟨hx1, hx2, hx3, hx4⟩ := hprop x hx
  refine ⟨hx1, hx2, hx4, fun y hy => ?_⟩
  rw [hx3]
  exact (chunkLastFp_of_const hfp hne y hy).symm

/-- Invariant behind preceding alignment: the planner loop keeps the chunk
and preceding lists the same length, pairwise satisfying `PrecedingOk`. -/
theorem chunkGo_preceding (allItems : List CacheItem) (tt ll plt : Nat) :
    ∀ (rest : List CacheItem) (i skip lineLen tokLen : Nat) (chunk : List CacheItem)
      (cAcc pAcc : List (List CacheItem)),
      cAcc.length = pAcc.length →
      (∀ a ∈ chunk, ∀ b ∈ chunk, a.file_path = b.file_path) →
      (∀ pr ∈ cAcc.zip pAcc, PrecedingOk allItems plt pr) →
      (CacheManager.chunkGo allItems tt ll plt rest i skip lineLen tokLen chunk cAcc pAcc).1.length
          = (CacheManager.chunkGo allItems tt ll plt rest i skip lineLen tokLen chunk
              cAcc pAcc).2.length ∧
        ∀ pr ∈
          (CacheManager.chunkGo allItems tt ll plt rest i skip lineLen tokLen chunk
              cAcc pAcc).1.zip
            (CacheManager.chunkGo allItems tt ll plt rest i skip lineLen tokLen chunk
              cAcc pAcc).2,
          PrecedingOk allItems plt pr := by
  intro rest
  induction rest with
  | nil =>
    intro i skip lineLen tokLen chunk cAcc pAcc hlen hfp hAcc
    by_cases hchunk : chunk = []
    · rw [CacheManager.chunkGo, if_pos hchunk]
      exact ⟨hlen, hAcc⟩
    · rw [CacheManager.chunkGo, if_neg hchunk]
      refine ⟨by simp [hlen], fun pr hpr => ?_⟩
      rw [List.zip_append hlen] at hpr
      rcases List.mem_append.mp hpr with h | h
      · exact hAcc pr h
      · have : pr = (chunk, CacheManager.generate_preceding_chunks allItems chunk i skip plt) := by
          simpa using h
        subst this
        exact precedingOk_flush allItems plt chunk i skip hfp hchunk
  | cons item rest ih =>
    intro i skip lineLen tokLen chunk cAcc pAcc hlen hfp hAcc
    by_cases hst : item.status = TranslationStatus.UNTRANSLATED
    · rw [CacheManager.chunkGo, if_neg (by simp [hst])]
      by_cases hchunk : chunk = []
      · rw [if_pos hchunk]
        refine ih _ _ _ _ _ _ _ hlen ?_ hAcc
        subst hchunk
        intro a ha b hb
        have ha' : a = item := by simpa using ha
        have hb' : b = item := by simpa using hb
        rw [ha', hb']
      · rw [if_neg hchunk]
        by_cases hcond : ll < lineLen + CacheManager.nonEmptyLineLen item.src ∨
            tt < tokLen + item.token_count ∨
            item.file_path ≠ CacheManager.chunkLastFp chunk
        · rw [if_pos hcond]
          refine ih _ _ _ _ _ _ _ (by simp [hlen]) (by simp) ?_
          intro pr hpr
          rw [List.zip_append hlen] at hpr
          rcases List.mem_append.mp hpr with h | h
          · exact hAcc pr h
          · have : pr =
                (chunk, CacheManager.generate_preceding_chunks allItems chunk i skip plt) := by
              simpa using h
            subst this
            exact precedingOk_flush allItems plt chunk i skip hfp hchunk
        · rw [if_neg hcond]
          push_neg at hcond
          exact ih _ _ _ _ _ _ _ hlen (fpconst_append hfp hchunk hcond.2.2) hAcc
    · rw [CacheManager.chunkGo, if_pos (by simp [hst])]
      exact ih _ _ _ _ _ _ _ hlen hfp hAcc

/-- C4: `generate_item_chunks` returns as many preceding chunks as chunks;
each preceding chunk holds at most `preceding_lines_threshold` items, is a
subsequence of the item list (reading order), and each of its items is not
`EXCLUDED`, has a non-empty stripped source ending with one of the terminal
punctuation marks, and shares its file path with every item of the
corresponding chunk. -/
theorem C4_preceding_alignment (items : List CacheItem)
    (token_threshold preceding_lines_threshold : Nat) :
    (CacheManager.generate_item_chunks items token_threshold
        preceding_lines_threshold).2.length =
      (CacheManager.generate_item_chunks items token_threshold
        preceding_lines_threshold).1.length ∧
    ∀ pr ∈ (CacheManager.generate_item_chunks items token_threshold
          preceding_lines_threshold).1.zip
        (CacheManager.generate_item_chunks items token_threshold
          preceding_lines_threshold).2,
      pr.2.length ≤ preceding_lines_threshold ∧ pr.2.Sublist items ∧
      ∀ x ∈ pr.2, x.status ≠ TranslationStatus.EXCLUDED ∧ pyStrip x.src ≠ "" ∧
        CacheManager.endsWithEndLinePunctuation (pyStrip x.src) = true ∧
        ∀ y ∈ pr.1, x.file_path = y.file_path := by
  obtain ⟨h1, h2⟩ := chunkGo_preceding items token_threshold
    (max 8 (token_threshold / 16)) preceding_lines_threshold items 0 0 0 0 [] [] []
    rfl (by simp) (by simp)
  exact ⟨h1.symm, h2⟩

/-- Witness for C4 at a concrete input: with a 250-token threshold the two
sample items land in separate chunks, and the second chunk's preceding chunk
is exactly the first item, satisfying every claimed property. -/
theorem C4_preceding_alignment_witness :
    [sampleHello].length ≤ 5 ∧ [sampleHello].Sublist [sampleHello, sampleWorld] ∧
      ∀ x ∈ [sampleHello], x.status ≠ TranslationStatus.EXCLUDED ∧ pyStrip x.src ≠ "" ∧
        CacheManager.endsWithEndLinePunctuation (pyStrip x.src) = true ∧
        ∀ y ∈ [sampleWorld], x.file_path = y.file_path := by
  have h := (C4_preceding_alignment [sampleHello, sampleWorld] 250 5).2
  exact h ([sampleWorld], [sampleHello]) (by decide)

/-- C7: at finalize the project status becomes `TRANSLATED` exactly when no
item is left `UNTRANSLATED`; with `UNTRANSLATED` items remaining the status
is left as it was — in particular a project in `TRANSLATING` stays
`TRANSLATING` on round-limit exhaustion. -/
theorem C7_finalize_status (items : List CacheItem) (current : TranslationStatus) :
    (CacheManager.get_item_count_by_status items TranslationStatus.UNTRANSLATED = 0 →
      Translator.finalize_project_status items current = TranslationStatus.TRANSLATED) ∧
    (CacheManager.get_item_count_by_status items TranslationStatus.UNTRANSLATED ≠ 0 →
      Translator.finalize_project_status items current = current) ∧
    (CacheManager.get_item_count_by_status items TranslationStatus.UNTRANSLATED ≠ 0 →
      Translator.finalize_project_status items TranslationStatus.TRANSLATING =
        TranslationStatus.TRANSLATING) := by
  refine ⟨fun h => ?_, fun h => ?_, fun h => ?_⟩ <;>
    simp [Translator.finalize_project_status, h]

/-- Witness for C7 at concrete inputs: an empty item list finalizes to
`TRANSLATED`, and a list with one `UNTRANSLATED` item leaves `TRANSLATING`
unchanged. -/
theorem C7_finalize_status_witness :
    Translator.finalize_project_status [] TranslationStatus.TRANSLATING =
        TranslationStatus.TRANSLATED ∧
      Translator.finalize_project_status [sampleUntranslated] TranslationStatus.TRANSLATING =
        TranslationStatus.TRANSLATING :=
  ⟨(C7_finalize_status [] TranslationStatus.TRANSLATING).1 (by decide),
   (C7_finalize_status [sampleUntranslated] TranslationStatus.TRANSLATING).2.2 (by decide)⟩

/-- C9: one completed task with a non-empty result and non-negative usage
counts increases `line` by exactly `row_count`, `total_tokens` by exactly
`input_tokens + output_tokens` and `total_output_tokens` by exactly
`output_tokens` — hence none of the three decreases — and leaves
`start_time` and `total_line` unchanged. -/
theorem C9_extras_update (extras : Translator.Extras) (r : Translator.TaskResult) (now : ℚ)
    (h1 : 0 ≤ r.row_count) (h2 : 0 ≤ r.input_tokens) (h3 : 0 ≤ r.output_tokens) :
    (Translator.task_done_callback extras (some r) now).line = extras.line + r.row_count ∧
    (Translator.task_done_callback extras (some r) now).total_tokens =
      extras.total_tokens + r.input_tokens + r.output_tokens ∧
    (Translator.task_done_callback extras (some r) now).total_output_tokens =
      extras.total_output_tokens + r.output_tokens ∧
    extras.line ≤ (Translator.task_done_callback extras (some r) now).line ∧
    extras.total_tokens ≤ (Translator.task_done_callback extras (some r) now).total_tokens ∧
    extras.total_output_tokens ≤
      (Translator.task_done_callback extras (some r) now).total_output_tokens ∧
    (Translator.task_done_callback extras (some r) now).start_time = extras.start_time ∧
    (Translator.task_done_callback extras (some r) now).total_line = extras.total_line := by
  refine ⟨rfl, rfl, rfl, ?_, ?_, ?_, rfl, rfl⟩ <;>
    simp [Translator.task_done_callback] <;> omega

/-- Witness for C9 at a concrete extras record and result. -/
theorem C9_extras_update_witness :
    (Translator.task_done_callback
        { start_time := 5, total_line := 10, line := 3, total_tokens := 100,
          total_output_tokens := 40, time := 0 }
        (some { row_count := 2, input_tokens := 30, output_tokens := 7 }) 9).line = 5 ∧
      (Translator.task_done_callback
        { start_time := 5, total_line := 10, line := 3, total_tokens := 100,
          total_output_tokens := 40, time := 0 }
        (some { row_count := 2, input_tokens := 30, output_tokens := 7 }) 9).total_line = 10 := by
  have h := C9_extras_update
    { start_time := 5, total_line := 10, line := 3, total_tokens := 100,
      total_output_tokens := 40, time := 0 }
    { row_count := 2, input_tokens := 30, output_tokens := 7 } 9
    (by norm_num) (by norm_num) (by norm_num)
  exact ⟨by rw [h.1]; decide, by rw [h.2.2.2.2.2.2.2]⟩

/-- C10: both filters replace each item whose source the respective predicate
accepts by the same item with status `EXCLUDED` — whatever its current
status — and keep every other item entirely unchanged; the list length never
changes. -/
theorem C10_filter_frame (p : String → Bool → Bool) (q : String → Lang → Bool)
    (lang : Lang) (items : List CacheItem) :
    (Translator.rule_filter p items).length = items.length ∧
    (Translator.language_filter q lang items).length = items.length ∧
    (∀ i, i < items.length →
      (Translator.rule_filter p items).getD i default =
        (if p (items.getD i default).src (items.getD i default).skip_internal_filter then
          { items.getD i default with status := TranslationStatus.EXCLUDED }
        else items.getD i default)) ∧
    (∀ i, i < items.length →
      (Translator.language_filter q lang items).getD i default =
        (if q (items.getD i default).src lang then
          { items.getD i default with status := TranslationStatus.EXCLUDED }
        else items.getD i default)) := by
  by_cases hlen : items.length = 0
  · have : items = [] := List.length_eq_zero.mp hlen
    subst this
    refine ⟨by simp [Translator.rule_filter], by simp [Translator.language_filter],
      fun i hi => by simp at hi, fun i hi => by simp at hi⟩
  · refine ⟨?_, ?_, fun i hi => ?_, fun i hi => ?_⟩
    · simp [Translator.rule_filter, hlen]
    · simp [Translator.language_filter, hlen]
    · rw [Translator.rule_filter, if_neg hlen, getD_map_of_lt _ _ _ hi]
    · rw [Translator.language_filter, if_neg hlen, getD_map_of_lt _ _ _ hi]

/-- Witness for C10 at a concrete predicate and items: a `TRANSLATED` item
matching the predicate becomes `EXCLUDED` with all other fields kept, and a
non-matching item is untouched. -/
theorem C10_filter_frame_witness :
    (Translator.rule_filter (fun s _ => s == "bad")
        [sampleTranslatedBad, sampleUntranslated]).getD 0 default =
      { sampleTranslatedBad with status := TranslationStatus.EXCLUDED } ∧
    (Translator.language_filter (fun _ _ => false) Lang.JA
        [sampleTranslatedBad, sampleUntranslated]).getD 1 default = sampleUntranslated := by
  have h := C10_filter_frame (fun s _ => s == "bad") (fun _ _ => false) Lang.JA
    [sampleTranslatedBad, sampleUntranslated]
  constructor
  · rw [h.2.2.1 0 (by decide)]
    decide
  · rw [h.2.2.2 1 (by decide)]
    decide

theorem keysOk_nil : keysOk [] := by
  simp [keysOk]

/-- Inserting under the key `str(len(d))` preserves the key shape: an update
in place keeps the keys, a fresh key extends the range by one. -/
theorem dictInsert_keysOk (d : List (String × String)) (v : String) (h : keysOk d) :
    keysOk (ResponseDecoder.dictInsert d (toString d.length) v) := by
  unfold ResponseDecoder.dictInsert
  by_cases hc : d.any (fun kv => kv.1 == toString d.length)
  · rw [if_pos hc]
    have hmap :
        (d.map (fun kv =>
          if kv.1 == toString d.length then (toString d.length, v) else kv)).map Prod.fst =
          d.map Prod.fst := by
      rw [List.map_map]
      refine List.map_congr_left fun kv _ => ?_
      by_cases hkv : kv.1 = toString d.length
      · simp [Function.comp_apply, hkv]
      · simp [Function.comp_apply, hkv]
    unfold keysOk
    rw [hmap, List.length_map]
    exact h
  · rw [if_neg hc]
    unfold keysOk
    rw [List.map_append, List.length_append, h]
    simp [List.range_succ, keysOk]

theorem decodeDst_keysOk (entries : List (String × ResponseDecoder.PyVal))
    (d : List (String × String)) (h : keysOk d) :
    keysOk (ResponseDecoder.decodeDst entries d) := by
  unfold ResponseDecoder.decodeDst
  by_cases h1 : entries.length = 1
  · rw [if_pos h1]
    cases hh : entries.head? with
    | none => exact h
    | some kv =>
      obtain ⟨k, val⟩ := kv
      cases val with
      | vstr v => exact dictInsert_keysOk d v h
      | vdict es => exact h
      | vother => exact h
  · rw [if_neg h1]
    exact h

theorem decodeLineStep_keysOk (parse : String → ResponseDecoder.PyVal)
    (acc : List (String × String) × List ResponseDecoder.GlossaryEntry) (line : String)
    (h : keysOk acc.1) : keysOk (ResponseDecoder.decodeLineStep parse acc line).1 := by
  unfold ResponseDecoder.decodeLineStep
  cases parse line with
  | vdict entries => exact decodeDst_keysOk entries acc.1 h
  | vstr s => exact h
  | vother => exact h

theorem linePass_foldl_keysOk (parse : String → ResponseDecoder.PyVal) :
    ∀ (lines : List String) (acc : List (String × String) × List ResponseDecoder.GlossaryEntry),
      keysOk acc.1 → keysOk ((lines.foldl (ResponseDecoder.decodeLineStep parse) acc)).1 := by
  intro lines
  induction lines with
  | nil => intro acc h; exact h
  | cons line rest ih =>
    intro acc h
    exact ih _ (decodeLineStep_keysOk parse acc line h)

theorem linePass_keysOk (parse : String → ResponseDecoder.PyVal) (response : String) :
    keysOk (ResponseDecoder.linePass parse response).1 :=
  linePass_foldl_keysOk parse (pySplitlines response) ([], []) keysOk_nil

theorem wholeFallback_foldl_keysOk :
    ∀ (entries : List (String × ResponseDecoder.PyVal)) (d : List (String × String)),
      keysOk d →
      keysOk (entries.foldl
        (fun acc kv =>
          match kv.2 with
          | ResponseDecoder.PyVal.vstr v =>
            ResponseDecoder.dictInsert acc (toString acc.length) v
          | _ => acc)
        d) := by
  intro entries
  induction entries with
  | nil => intro d h; exact h
  | cons kv rest ih =>
    intro d h
    cases hv : kv.2 with
    | vstr v =>
      simp only [List.foldl_cons, hv]
      exact ih _ (dictInsert_keysOk d v h)
    | vdict es =>
      simp only [List.foldl_cons, hv]
      exact ih _ h
    | vother =>
      simp only [List.foldl_cons, hv]
      exact ih _ h

theorem wholeFallback_keysOk (parse : String → ResponseDecoder.PyVal) (response : String)
    (d : List (String × String)) (h : keysOk d) :
    keysOk (ResponseDecoder.wholeFallback parse response d) := by
  unfold ResponseDecoder.wholeFallback
  cases parse response with
  | vdict entries => exact wholeFallback_foldl_keysOk entries d h
  | vstr s => exact h
  | vother => exact h

/-- C6: for every parse function and input string, `decode` returns a
dictionary whose keys are exactly the decimal strings of `0, …, n-1` in
insertion order; the whole-response fallback contributes translations only
when the line-wise pass produced none, and the glossary list always comes
from the line-wise pass alone. -/
theorem C6_decoder_shape (parse : String → ResponseDecoder.PyVal) (response : String) :
    ((ResponseDecoder.decode parse response).1.map Prod.fst =
      (List.range (ResponseDecoder.decode parse response).1.length).map
        (fun n => toString n)) ∧
    ((ResponseDecoder.linePass parse response).1 ≠ [] →
      (ResponseDecoder.decode parse response).1 = (ResponseDecoder.linePass parse response).1) ∧
    (ResponseDecoder.decode parse response).2 = (ResponseDecoder.linePass parse response).2 := by
  refine ⟨?_, fun hne => ?_, rfl⟩
  · show keysOk (ResponseDecoder.decode parse response).1
    unfold ResponseDecoder.decode
    by_cases h0 : (ResponseDecoder.linePass parse response).1.length = 0
    · simp only [if_pos h0]
      exact wholeFallback_keysOk parse response _ (linePass_keysOk parse response)
    · simp only [if_neg h0]
      exact linePass_keysOk parse response
  · unfold ResponseDecoder.decode
    simp only [if_neg (fun h0 => hne (List.length_eq_zero.mp h0))]

/-- Witness for C6 at a concrete parse function and response: on input `x`
the decoder returns the single translation under key `0`, taken from the
line-wise pass. -/
theorem C6_decoder_shape_witness :
    (ResponseDecoder.decode parseW "x").1.map Prod.fst = ["0"] ∧
      (ResponseDecoder.decode parseW "x").1 = [("0", "hello")] := by
  have h := C6_decoder_shape parseW "x"
  constructor
  · rw [h.1]
    decide
  · exact (h.2.1 (by decide)).trans (by decide)

/-- Flat-mapping a function that is empty off a predicate equals filtering
then flat-mapping. -/
theorem flatMap_ite_filter {α β : Type} (p : α → Bool) (f : α → List β) :
    ∀ l : List α, (l.flatMap fun x => if p x then f x else []) = (l.filter p).flatMap f := by
  intro l
  induction l with
  | nil => simp
  | cons a l ih =>
    by_cases hp : p a <;> simp [hp, ih]

/-- Flat-mapping over a flattened list of lists is the nested flat-map. -/
theorem flatten_flatMap {α β : Type} (h : α → List β) :
    ∀ groups : List (List α), groups.flatten.flatMap h = groups.flatMap fun g => g.flatMap h := by
  intro groups
  induction groups with
  | nil => simp
  | cons g groups ih => simp [ih]

/-- Flat-map respects pointwise equality on the list's members. -/
theorem flatMap_congr_mem {α β : Type} :
    ∀ (l : List α) (f g : α → List β), (∀ x ∈ l, f x = g x) → l.flatMap f = l.flatMap g := by
  intro l
  induction l with
  | nil => intro f g _; rfl
  | cons a l ih =>
    intro f g h
    simp only [List.flatMap_cons]
    rw [h a (List.mem_cons_self a l), ih f g (fun x hx => h x (List.mem_cons_of_mem a hx))]

/-- The key accumulator of `groupKeys` only grows. -/
theorem groupKeys_foldl_mono (k : String) :
    ∀ (l : List CacheItem) (acc : List String), k ∈ acc →
      k ∈ l.foldl
        (fun acc it => if it.file_path ∈ acc then acc else acc ++ [it.file_path]) acc := by
  intro l
  induction l with
  | nil => intro acc h; exact h
  | cons item rest ih =>
    intro acc h
    simp only [List.foldl_cons]
    by_cases hm : item.file_path ∈ acc
    · rw [if_pos hm]; exact ih acc h
    · rw [if_neg hm]; exact ih _ (List.mem_append_left _ h)

/-- Every item's file path appears among the grouping keys. -/
theorem groupKeys_complete :
    ∀ (l : List CacheItem) (acc : List String) (it : CacheItem), it ∈ l →
      it.file_path ∈ l.foldl
        (fun acc it => if it.file_path ∈ acc then acc else acc ++ [it.file_path]) acc := by
  intro l
  induction l with
  | nil => intro acc it h; simp at h
  | cons item rest ih =>
    intro acc it h
    rcases List.mem_cons.mp h with h | h
    · subst h
      simp only [List.foldl_cons]
      by_cases hm : it.file_path ∈ acc
      · rw [if_pos hm]; exact groupKeys_foldl_mono _ rest acc hm
      · rw [if_neg hm]
        exact groupKeys_foldl_mono _ rest _ (List.mem_append_right _ (List.mem_singleton_self _))
    · simp only [List.foldl_cons]
      by_cases hm : item.file_path ∈ acc <;> [rw [if_pos hm]; rw [if_neg hm]] <;> exact ih _ it h

/-- The grouping keys stay duplicate-free. -/
theorem groupKeys_foldl_nodup :
    ∀ (l : List CacheItem) (acc : List String), acc.Nodup →
      (l.foldl
        (fun acc it => if it.file_path ∈ acc then acc else acc ++ [it.file_path]) acc).Nodup := by
  intro l
  induction l with
  | nil => intro acc h; exact h
  | cons item rest ih =>
    intro acc h
    simp only [List.foldl_cons]
    by_cases hm : item.file_path ∈ acc
    · rw [if_pos hm]; exact ih acc h
    · rw [if_neg hm]
      refine ih _ ?_
      simp [List.nodup_append, h, hm]

theorem groupKeys_nodup (l : List CacheItem) : (Translator.groupKeys l).Nodup :=
  groupKeys_foldl_nodup l [] List.nodup_nil

theorem groupKeys_mem (l : List CacheItem) (it : CacheItem) (h : it ∈ l) :
    it.file_path ∈ Translator.groupKeys l :=
  groupKeys_complete l [] it h

/-- Count of an element in a filtered list. -/
theorem count_filter_eq {α : Type} [DecidableEq α] (p : α → Bool) (x : α) :
    ∀ l : List α, (l.filter p).count x = if p x then l.count x else 0 := by
  intro l
  induction l with
  | nil => simp
  | cons a l ih =>
    by_cases hp : p a
    · by_cases hax : x = a
      · subst hax
        simp [List.filter_cons, hp, List.count_cons, ih]
      · simp [List.filter_cons, hp, List.count_cons, ih, hax]
    · by_cases hax : x = a
      · subst hax
        simp [List.filter_cons, hp, List.count_cons, ih]
      · simp [List.filter_cons, hp, List.count_cons, ih, hax]

/-- Summing an indicator over duplicate-free keys picks out at most one. -/
theorem sum_ite_mem (fp : String) (c : Nat) :
    ∀ keys : List String, keys.Nodup →
      (keys.map (fun k => if fp = k then c else 0)).sum = if fp ∈ keys then c else 0 := by
  intro keys
  induction keys with
  | nil => simp
  | cons k ks ih =>
    intro hnd
    obtain ⟨hk, hnd'⟩ := List.nodup_cons.mp hnd
    by_cases h : fp = k
    · subst h
      simp only [List.map_cons, List.sum_cons, if_pos rfl, ih hnd']
      simp [hk]
    · simp [List.map_cons, List.sum_cons, h, ih hnd', List.mem_cons]

/-- The groups of `groupByFilePath` together are a permutation of the
grouped list. -/
theorem flatten_groupByFilePath_perm (l : List CacheItem) :
    (Translator.groupByFilePath l).flatten.Perm l := by
  refine List.perm_iff_count.mpr fun x => ?_
  rw [List.count_flatten]
  unfold Translator.groupByFilePath
  rw [List.map_map]
  have hmap :
      (Translator.groupKeys l).map (List.count x ∘ fun k =>
          l.filter (fun item => item.file_path = k)) =
        (Translator.groupKeys l).map (fun k => if x.file_path = k then l.count x else 0) := by
    refine List.map_congr_left fun k _ => ?_
    have := count_filter_eq (fun item : CacheItem => item.file_path = k) x l
    simp only [Function.comp_apply, this]
    by_cases hx : x.file_path = k <;> simp [hx]
  rw [hmap, sum_ite_mem x.file_path (l.count x) (Translator.groupKeys l) (groupKeys_nodup l)]
  by_cases hx : x ∈ l
  · rw [if_pos (groupKeys_mem l x hx)]
  · rw [List.count_eq_zero.mpr hx]
    simp

/-- Inside `groupByFilePath`, each group's length is the file-path group
size of each of its members. -/
theorem group_length_eq_kvGroupSize (items : List CacheItem) (g : List CacheItem)
    (hg : g ∈ Translator.groupByFilePath
      (items.filter (fun item => item.file_type = FileType.KVJSON)))
    (it : CacheItem) (hit : it ∈ g) :
    g.length = Translator.kvGroupSize items it.file_path := by
  obtain ⟨k, _, hk⟩ := List.mem_map.mp hg
  subst hk
  have hfp : it.file_path = k := by
    have := (List.mem_filter.mp hit).2
    simpa using this
  unfold Translator.kvGroupSize
  congr 1
  refine List.filter_congr fun a _ => ?_
  rw [hfp]

/-- C8: with the optimizer enabled on a non-empty item list, the postprocess
keeps every pre-existing item unchanged in place and appends exactly the new
items the claim describes — one per zip-longest line pair of each multi-line
KVJSON item, carrying the parent's vars with `row` the size of the parent's
file-path group — up to the group-major order the loop uses. -/
theorem C8_postprocess_appended (items : List CacheItem) (hne : items ≠ []) :
    (Translator.mtool_optimizer_postprocess true items).take items.length = items ∧
    ((Translator.mtool_optimizer_postprocess true items).drop items.length).Perm
      (Translator.claimAppended items) := by
  have hcond : ¬(items.length = 0 ∨ (true : Bool) = false) := by
    simp [List.length_eq_zero, hne]
  unfold Translator.mtool_optimizer_postprocess
  rw [if_neg hcond]
  refine ⟨List.take_left items _, ?_⟩
  rw [List.drop_left items _]
  unfold Translator.postprocessAppended
  have hstep1 :
      (Translator.groupByFilePath
          (items.filter (fun item => item.file_type = FileType.KVJSON))).flatMap
        (fun g => g.flatMap (fun item =>
          if Translator.hasNewline item.src then Translator.mkChildren item g.length else [])) =
      (Translator.groupByFilePath
          (items.filter (fun item => item.file_type = FileType.KVJSON))).flatMap
        (fun g => g.flatMap (fun item =>
          if Translator.hasNewline item.src then
            Translator.mkChildren item (Translator.kvGroupSize items item.file_path)
          else [])) := by
    refine flatMap_congr_mem _ _ _ fun g hg => ?_
    refine flatMap_congr_mem _ _ _ fun it hit => ?_
    rw [group_length_eq_kvGroupSize items g hg it hit]
  rw [hstep1, ← flatten_flatMap]
  have hperm := (flatten_groupByFilePath_perm
    (items.filter (fun item => item.file_type = FileType.KVJSON))).flatMap_right
    (fun item =>
      if Translator.hasNewline item.src then
        Translator.mkChildren item (Translator.kvGroupSize items item.file_path)
      else [])
  refine hperm.trans ?_
  rw [flatMap_ite_filter, List.filter_filter]
  unfold Translator.claimAppended
  have hfil :
      (items.filter fun a =>
          Translator.hasNewline a.src && decide (a.file_type = FileType.KVJSON)) =
        items.filter
          (fun item => item.file_type = FileType.KVJSON ∧ Translator.hasNewline item.src) := by
    refine List.filter_congr fun a _ => ?_
    by_cases h1 : a.file_type = FileType.KVJSON <;>
      by_cases h2 : Translator.hasNewline a.src <;> simp [h1, h2]
  rw [hfil]

/-- Witness for C8 at a concrete list: the single multi-line KVJSON item is
kept unchanged and its three zip-longest children are appended. -/
theorem C8_postprocess_appended_witness :
    (Translator.mtool_optimizer_postprocess true [sampleKV]).take 1 = [sampleKV] ∧
      ((Translator.mtool_optimizer_postprocess true [sampleKV]).drop 1).Perm
        (Translator.claimAppended [sampleKV]) := by
  have h := C8_postprocess_appended [sampleKV] (by decide)
  simpa using h

end LinguaGacha
